import Mathlib

/-!
Shallow embedding of the `servicefile` crate (src/lib.rs), a parser for the
services(5) database format.  Rust string slices are modelled as lists of
Unicode characters (`List Char`); the byte-level indexing that the source
mixes with character counting is modelled explicitly through UTF-8 sizes.
Fallible operations return `Option`/`Except`: an outer `none` models a
Rust panic (a failed `unwrap` or a string slice at a non-boundary index).
-/

/-- Unicode `White_Space` test, modelling Rust's `char::is_whitespace`
(used by `discard_ws` and by `str::split_whitespace`). -/
def isRustWhitespace (c : Char) : Bool :=
  let n := c.toNat
  decide ((0x09 ≤ n ∧ n ≤ 0x0D) ∨ n = 0x20 ∨ n = 0x85 ∨ n = 0xA0 ∨
    n = 0x1680 ∨ (0x2000 ≤ n ∧ n ≤ 0x200A) ∨ n = 0x2028 ∨ n = 0x2029 ∨
    n = 0x202F ∨ n = 0x205F ∨ n = 0x3000)

/-- `is_comment` from src/lib.rs: true when the first character is `#`
(false on the empty string). -/
def is_comment (s : List Char) : Bool :=
  match s with
  | [] => false
  | c :: _ => c == '#'

/-- Accumulator-passing worker for `splitWhitespace`; `acc` holds the
characters of the token currently being read, in reverse. -/
def splitWhitespaceAux : List Char → List Char → List (List Char)
  | [], acc => if acc.isEmpty then [] else [acc.reverse]
  | c :: rest, acc =>
    if isRustWhitespace c then
      if acc.isEmpty then splitWhitespaceAux rest []
      else acc.reverse :: splitWhitespaceAux rest []
    else splitWhitespaceAux rest (c :: acc)

/-- Model of Rust's `str::split_whitespace`: the maximal runs of
non-whitespace characters, in order; empty tokens never occur. -/
def splitWhitespace (l : List Char) : List (List Char) :=
  splitWhitespaceAux l []

/-- Model of Rust's `str::split(sep)` (collected to a list): splits at every
occurrence of `sep`, keeping empty segments; the result is never empty. -/
def splitOn (sep : Char) : List Char → List (List Char)
  | [] => [[]]
  | c :: rest =>
    if c == sep then [] :: splitOn sep rest
    else
      match splitOn sep rest with
      | [] => [[c]]
      | t :: ts => (c :: t) :: ts

/-- Value of a list of decimal digit characters, most significant first. -/
def digitsVal (l : List Char) : Nat :=
  l.foldl (fun a c => a * 10 + (c.toNat - 48)) 0

/-- Strip one leading `+` sign, as Rust's unsigned `from_str` does. -/
def stripPlus (s : List Char) : List Char :=
  match s with
  | [] => []
  | c :: rest => if c == '+' then rest else c :: rest

/-- Model of Rust's `str::parse::<usize>()` on a 64-bit target: an optional
leading `+`, then one or more ASCII decimal digits, whose value must be
below `2 ^ 64`.  (A leading `-` is not accepted for an unsigned type: it is
not a digit.)  `none` models `Err(ParseIntError)`. -/
def parseUsize (s : List Char) : Option Nat :=
  if (stripPlus s).isEmpty then none
  else if (stripPlus s).all Char.isDigit then
    if digitsVal (stripPlus s) < 2 ^ 64 then some (digitsVal (stripPlus s)) else none
  else none

/-- The alias-collecting loop of `ServiceEntry::from_str`: push tokens until
the stream ends or a token starting with `#` is reached (break). -/
def collectAliases : List (List Char) → List (List Char)
  | [] => []
  | t :: rest => if is_comment t then [] else t :: collectAliases rest

/-- `ServiceEntry` from src/lib.rs. -/
structure ServiceEntry where
  name : List Char
  port : Nat
  protocol : List Char
  aliases : List (List Char)
  deriving DecidableEq, Repr

/-- The `&'static str` error values of src/lib.rs as an enumeration:
`malformedInput` is "Malformed input", `missingPortProtocolField` is
"Could not find port and protocol field", `malformedPort` is
"Malformed port", `missingProtocolField` is "Could not find protocol",
`invalidSource` is "File does not exist or is not a regular file",
`openFailed` is "Could not open file", `readFailed` is
"Error reading file". -/
inductive Err where
  | malformedInput
  | missingPortProtocolField
  | malformedPort
  | missingProtocolField
  | invalidSource
  | openFailed
  | readFailed
  deriving DecidableEq, Repr

deriving instance DecidableEq for Except

/-- `ServiceEntry::from_str` from src/lib.rs.  `none` models a panic
(the `unwrap` of the first whitespace token, or of the first `/`-split
segment — the latter is in fact unreachable). -/
def from_str (s : List Char) : Option (Except Err ServiceEntry) :=
  match splitWhitespace s with
  | [] => none
  | name :: rest =>
    if is_comment name then some (Except.error Err.malformedInput)
    else
      match rest with
      | [] => some (Except.error Err.missingPortProtocolField)
      | pp :: rest2 =>
        match splitOn '/' pp with
        | [] => none
        | port :: protoRest =>
          if is_comment port then some (Except.error Err.missingPortProtocolField)
          else
            match parseUsize port with
            | none => some (Except.error Err.malformedPort)
            | some p =>
              match protoRest with
              | [] => some (Except.error Err.missingProtocolField)
              | protocol :: _ =>
                if is_comment protocol then some (Except.error Err.missingProtocolField)
                else some (Except.ok (ServiceEntry.mk name p protocol (collectAliases rest2)))

/-- `discard_ws(input, 0)` from src/lib.rs, as `parse_file` calls it: counts
the leading whitespace CHARACTERS of the line (one per loop iteration). -/
def discard_ws : List Char → Nat
  | [] => 0
  | c :: rest => if isRustWhitespace c then discard_ws rest + 1 else 0

/-- Rust's `&line[start..]` on a `String`: drop `start` BYTES.  `none`
models the panic raised when `start` exceeds the byte length or falls
inside a multi-byte character (not a char boundary). -/
def byteDrop : List Char → Nat → Option (List Char)
  | l, 0 => some l
  | [], _ + 1 => none
  | c :: rest, n + 1 =>
    if c.utf8Size ≤ n + 1 then byteDrop rest (n + 1 - c.utf8Size) else none

/-- Byte length of a Rust `&str` holding these characters (UTF-8). -/
def utf8Len (l : List Char) : Nat :=
  l.foldl (fun n c => n + c.utf8Size) 0

/-- One item of the line stream delivered by `BufReader::lines()`:
a successfully read line, or an I/O read error. -/
inductive ReadEvent where
  | ok (line : List Char)
  | fail

/-- The line loop of `parse_file` from src/lib.rs, over an abstract line
stream (the path-existence and open checks are I/O glue outside the loop).
`none` models a panic: the byte slice `&line[discard_ws(&line, 0)..]` at a
non-boundary index, or a panic inside `from_str`. -/
def parse_file_lines (ignoreErrs : Bool) : List ReadEvent → Option (Except Err (List ServiceEntry))
  | [] => some (Except.ok [])
  | ReadEvent.fail :: _ => some (Except.error Err.readFailed)
  | ReadEvent.ok line :: rest =>
    match byteDrop line (discard_ws line) with
    | none => none
    | some entryline =>
      match entryline with
      | [] => parse_file_lines ignoreErrs rest
      | c :: cs =>
        if c == '#' then parse_file_lines ignoreErrs rest
        else
          match from_str (c :: cs) with
          | none => none
          | some (Except.error msg) =>
            if ignoreErrs then parse_file_lines ignoreErrs rest
            else some (Except.error msg)
          | some (Except.ok e) =>
            match parse_file_lines ignoreErrs rest with
            | none => none
            | some (Except.error msg) => some (Except.error msg)
            | some (Except.ok es) => some (Except.ok (e :: es))

/-- A line whose leading whitespace consists of single-byte characters:
for such lines the char count of `discard_ws` agrees with the byte offset
used by the slice in `parse_file`. -/
def wsBenign (l : List Char) : Bool :=
  (l.takeWhile isRustWhitespace).all (fun c => c.utf8Size == 1)

/-- A line `parse_file` skips: blank after stripping leading whitespace, or
first significant character `#`. -/
def skippable (l : List Char) : Bool :=
  match l.dropWhile isRustWhitespace with
  | [] => true
  | c :: _ => c == '#'

/-- The entry a non-skipped line contributes, when its parse succeeds. -/
def okEntry (l : List Char) : Option ServiceEntry :=
  match l.dropWhile isRustWhitespace with
  | [] => none
  | c :: cs =>
    if c == '#' then none
    else
      match from_str (c :: cs) with
      | some (Except.ok e) => some e
      | _ => none

/-- The parse error a non-skipped line produces, when its parse fails. -/
def lineError (l : List Char) : Option Err :=
  match l.dropWhile isRustWhitespace with
  | [] => none
  | c :: cs =>
    if c == '#' then none
    else
      match from_str (c :: cs) with
      | some (Except.error m) => some m
      | _ => none

theorem splitOn_ne_nil (sep : Char) (l : List Char) : splitOn sep l ≠ [] := by
  induction l with
  | nil => simp [splitOn]
  | cons c rest ih =>
    simp only [splitOn]
    split
    · simp
    · split
      · simp
      · simp

theorem splitOn_append (sep : Char) (a b : List Char) (ha : sep ∉ a) :
    splitOn sep (a ++ sep :: b) = a :: splitOn sep b := by
  induction a with
  | nil => simp [splitOn]
  | cons c a' ih =>
    have hc : c ≠ sep := fun h => ha (by simp [h])
    have ha' : sep ∉ a' := fun h => ha (List.mem_cons_of_mem _ h)
    simp only [List.cons_append, splitOn, beq_iff_eq, if_neg hc, List.append_eq]
    rw [ih ha']

theorem splitOn_head (sep : Char) (b : List Char) :
    ∃ ts, splitOn sep b = b.takeWhile (fun c => c != sep) :: ts := by
  induction b with
  | nil => exact ⟨[], rfl⟩
  | cons c rest ih =>
    by_cases hc : c = sep
    · refine ⟨splitOn sep rest, ?_⟩
      simp [splitOn, hc, List.takeWhile_cons]
    · obtain ⟨ts, hts⟩ := ih
      refine ⟨ts, ?_⟩
      simp [splitOn, hc, hts, List.takeWhile_cons]

theorem splitWhitespaceAux_ne_nil (l : List Char) (acc : List Char) (hacc : acc ≠ []) :
    splitWhitespaceAux l acc ≠ [] := by
  induction l generalizing acc with
  | nil => simp [splitWhitespaceAux, List.isEmpty_iff, hacc]
  | cons c rest ih =>
    simp only [splitWhitespaceAux]
    split
    · simp [List.isEmpty_iff, hacc]
    · exact ih (c :: acc) (by simp)

theorem splitWhitespaceAux_mem_ne_nil (l : List Char) (acc : List Char) (t : List Char)
    (ht : t ∈ splitWhitespaceAux l acc) : t ≠ [] := by
  induction l generalizing acc with
  | nil =>
    simp only [splitWhitespaceAux] at ht
    split at ht
    · simp at ht
    · rename_i hne
      simp only [List.mem_singleton] at ht
      subst ht
      simp only [ne_eq, List.reverse_eq_nil_iff]
      exact fun h => by simp [h] at hne
  | cons c rest ih =>
    simp only [splitWhitespaceAux] at ht
    split at ht
    · split at ht
      · exact ih [] ht
      · rename_i hne
        rcases List.mem_cons.mp ht with h | h
        · subst h
          simp only [ne_eq, List.reverse_eq_nil_iff]
          exact fun h => by simp [h] at hne
        · exact ih [] h
    · exact ih (c :: acc) ht

theorem splitWhitespace_mem_ne_nil (l : List Char) (t : List Char)
    (ht : t ∈ splitWhitespace l) : t ≠ [] :=
  splitWhitespaceAux_mem_ne_nil l [] t ht

theorem splitWhitespace_cons_ne_nil (c : Char) (cs : List Char)
    (hc : isRustWhitespace c = false) : splitWhitespace (c :: cs) ≠ [] := by
  have h := splitWhitespaceAux_ne_nil cs [c] (by simp)
  simpa [splitWhitespace, splitWhitespaceAux, hc] using h

theorem parseUsize_all_digits (s : List Char) (v : Nat) (h : parseUsize s = some v) :
    (stripPlus s).all Char.isDigit = true := by
  unfold parseUsize at h
  split at h
  · exact absurd h (by simp)
  · split at h
    · assumption
    · exact absurd h (by simp)

theorem parseUsize_not_comment (s : List Char) (v : Nat) (h : parseUsize s = some v) :
    is_comment s = false := by
  have hall := parseUsize_all_digits s v h
  cases s with
  | nil => rfl
  | cons c cs =>
    by_cases hc : c = '+'
    · simp [is_comment, hc]
    · have hsp : stripPlus (c :: cs) = c :: cs := by simp [stripPlus, hc]
      rw [hsp, List.all_cons, Bool.and_eq_true] at hall
      have hcd := hall.1
      have hch : c ≠ '#' := by
        intro heq
        rw [heq] at hcd
        exact absurd hcd (by decide)
      simp only [is_comment, beq_eq_false_iff_ne, ne_eq]
      exact hch

theorem stripPlus_of_digits (d : List Char) (hd : d.all Char.isDigit = true) :
    stripPlus d = d := by
  cases d with
  | nil => rfl
  | cons c cs =>
    simp only [List.all_cons, Bool.and_eq_true] at hd
    have hc : c ≠ '+' := by
      intro h
      rw [h] at hd
      exact absurd hd.1 (by decide)
    simp [stripPlus, hc]

theorem parseUsize_digits (d : List Char) (hne : d ≠ []) (hd : d.all Char.isDigit = true)
    (hv : digitsVal d < 2 ^ 64) : parseUsize d = some (digitsVal d) := by
  have hplus : stripPlus d = d := by
    cases d with
    | nil => rfl
    | cons c cs =>
      simp only [List.all_cons, Bool.and_eq_true] at hd
      have : c ≠ '+' := by
        intro h
        rw [h] at hd
        simp [Char.isDigit] at hd
      simp [stripPlus, this]
  unfold parseUsize
  rw [hplus, if_neg (by simp [List.isEmpty_iff, hne]), if_pos hd, if_pos hv]

theorem parseUsize_plus_digits (d : List Char) (hne : d ≠ []) (hd : d.all Char.isDigit = true)
    (hv : digitsVal d < 2 ^ 64) : parseUsize ('+' :: d) = some (digitsVal d) := by
  have hplus : stripPlus ('+' :: d) = d := by simp [stripPlus]
  unfold parseUsize
  rw [hplus, if_neg (by simp [List.isEmpty_iff, hne]), if_pos hd, if_pos hv]

theorem collectAliases_eq_takeWhile (ts : List (List Char)) :
    collectAliases ts = ts.takeWhile (fun t => !is_comment t) := by
  induction ts with
  | nil => rfl
  | cons t rest ih =>
    simp only [collectAliases, List.takeWhile_cons]
    cases h : is_comment t <;> simp [h, ih]

theorem from_str_isSome (s : List Char) (h : splitWhitespace s ≠ []) :
    (from_str s).isSome = true := by
  unfold from_str
  split
  · exact absurd (by assumption) h
  · split
    · rfl
    · split
      · rfl
      · split
        · rename_i heq
          exact absurd heq (splitOn_ne_nil _ _)
        · split
          · rfl
          · split
            · rfl
            · split
              · rfl
              · split
                · rfl
                · rfl

theorem stripLine_benign (l : List Char) (hb : wsBenign l = true) :
    byteDrop l (discard_ws l) = some (l.dropWhile isRustWhitespace) := by
  induction l with
  | nil => rfl
  | cons c rest ih =>
    cases hw : isRustWhitespace c with
    | false => simp [discard_ws, hw, byteDrop, List.dropWhile_cons]
    | true =>
      simp only [wsBenign, List.takeWhile_cons, hw, if_true, List.all_cons,
        Bool.and_eq_true, beq_iff_eq] at hb
      obtain ⟨hsz, hrest⟩ := hb
      simp only [discard_ws, hw, if_true, List.dropWhile_cons]
      simp only [byteDrop, hsz]
      rw [if_pos (Nat.le_add_left 1 _)]
      simpa using ih hrest

theorem dropWhile_cons_head (p : Char → Bool) (l : List Char) (c : Char) (cs : List Char)
    (h : l.dropWhile p = c :: cs) : p c = false := by
  induction l with
  | nil => simp at h
  | cons a l' ih =>
    rw [List.dropWhile_cons] at h
    split at h
    · exact ih h
    · rename_i hp
      injection h with h1 h2
      subst h1
      simpa using hp

theorem okEntry_none_of_skippable (l : List Char) (hs : skippable l = true) :
    okEntry l = none := by
  cases hd : l.dropWhile isRustWhitespace with
  | nil => simp [okEntry, hd]
  | cons c cs =>
    have hc : (c == '#') = true := by simpa [skippable, hd] using hs
    simp [okEntry, hd, hc]

theorem okEntry_none_of_lineError (l : List Char) (m : Err) (hm : lineError l = some m) :
    okEntry l = none := by
  cases hd : l.dropWhile isRustWhitespace with
  | nil => simp [okEntry, hd]
  | cons c cs =>
    simp only [lineError, hd] at hm
    split at hm
    · exact absurd hm (by simp)
    · rename_i hcc
      cases hf : from_str (c :: cs) with
      | none => rw [hf] at hm; exact absurd hm (by simp)
      | some r =>
        cases r with
        | ok e => rw [hf] at hm; exact absurd hm (by simp)
        | error m' => simp [okEntry, hd, hcc, hf]

theorem parse_step_skip (ig : Bool) (l : List Char) (rest : List ReadEvent)
    (hb : wsBenign l = true) (hs : skippable l = true) :
    parse_file_lines ig (ReadEvent.ok l :: rest) = parse_file_lines ig rest := by
  have hbd := stripLine_benign l hb
  cases hd : l.dropWhile isRustWhitespace with
  | nil =>
    rw [hd] at hbd
    simp [parse_file_lines, hbd]
  | cons c cs =>
    rw [hd] at hbd
    have hc : (c == '#') = true := by simpa [skippable, hd] using hs
    simp [parse_file_lines, hbd, hc]

theorem parse_step_ok (ig : Bool) (l : List Char) (rest : List ReadEvent) (e : ServiceEntry)
    (hb : wsBenign l = true) (he : okEntry l = some e) :
    parse_file_lines ig (ReadEvent.ok l :: rest) =
      (parse_file_lines ig rest).map (Except.map (e :: ·)) := by
  have hbd := stripLine_benign l hb
  cases hd : l.dropWhile isRustWhitespace with
  | nil => simp [okEntry, hd] at he
  | cons c cs =>
    rw [hd] at hbd
    simp only [okEntry, hd] at he
    split at he
    · exact absurd he (by simp)
    · rename_i hcc
      have hc : (c == '#') = false := by simpa using hcc
      cases hf : from_str (c :: cs) with
      | none => rw [hf] at he; exact absurd he (by simp)
      | some r =>
        cases r with
        | error m => rw [hf] at he; exact absurd he (by simp)
        | ok e' =>
          rw [hf] at he
          simp only [Option.some.injEq] at he
          subst he
          cases hr : parse_file_lines ig rest with
          | none => simp [parse_file_lines, hbd, hc, hf, hr]
          | some r' =>
            cases r' with
            | error m => simp [parse_file_lines, hbd, hc, hf, hr, Except.map]
            | ok es => simp [parse_file_lines, hbd, hc, hf, hr, Except.map]

theorem parse_step_err (ig : Bool) (l : List Char) (rest : List ReadEvent) (m : Err)
    (hb : wsBenign l = true) (hm : lineError l = some m) :
    parse_file_lines ig (ReadEvent.ok l :: rest) =
      if ig then parse_file_lines ig rest else some (Except.error m) := by
  have hbd := stripLine_benign l hb
  cases hd : l.dropWhile isRustWhitespace with
  | nil => simp [lineError, hd] at hm
  | cons c cs =>
    rw [hd] at hbd
    simp only [lineError, hd] at hm
    split at hm
    · exact absurd hm (by simp)
    · rename_i hcc
      have hc : (c == '#') = false := by simpa using hcc
      cases hf : from_str (c :: cs) with
      | none => rw [hf] at hm; exact absurd hm (by simp)
      | some r =>
        cases r with
        | ok e => rw [hf] at hm; exact absurd hm (by simp)
        | error m' =>
          rw [hf] at hm
          simp only [Option.some.injEq] at hm
          subst hm
          cases ig <;> simp [parse_file_lines, hbd, hc, hf]

theorem line_trichotomy (l : List Char) :
    skippable l = true ∨ (∃ e, okEntry l = some e) ∨ (∃ m, lineError l = some m) := by
  cases hd : l.dropWhile isRustWhitespace with
  | nil => left; simp [skippable, hd]
  | cons c cs =>
    by_cases hc : (c == '#') = true
    · left; simp [skippable, hd, hc]
    · have hcw : isRustWhitespace c = false := dropWhile_cons_head _ _ _ _ hd
      have hsw := splitWhitespace_cons_ne_nil c cs hcw
      have hsome := from_str_isSome (c :: cs) hsw
      cases hf : from_str (c :: cs) with
      | none => rw [hf] at hsome; simp at hsome
      | some r =>
        cases r with
        | ok e => exact Or.inr (Or.inl ⟨e, by simp [okEntry, hd, hc, hf]⟩)
        | error m => exact Or.inr (Or.inr ⟨m, by simp [lineError, hd, hc, hf]⟩)

theorem parse_file_lines_ignore (ls : List (List Char)) (hb : ∀ l ∈ ls, wsBenign l = true) :
    parse_file_lines true (ls.map ReadEvent.ok) = some (Except.ok (ls.filterMap okEntry)) := by
  induction ls with
  | nil => rfl
  | cons l ls' ih =>
    have hbl : wsBenign l = true := hb l (by simp)
    have ih' := ih (fun x hx => hb x (by simp [hx]))
    rcases line_trichotomy l with hs | ⟨e, he⟩ | ⟨m, hm⟩
    · rw [List.map_cons, parse_step_skip true l _ hbl hs, ih', List.filterMap_cons,
        okEntry_none_of_skippable l hs]
    · rw [List.map_cons, parse_step_ok true l _ e hbl he, ih', List.filterMap_cons, he]
      simp [Except.map]
    · rw [List.map_cons, parse_step_err true l _ m hbl hm, if_pos rfl, ih',
        List.filterMap_cons, okEntry_none_of_lineError l m hm]

theorem parse_file_lines_abort (pre : List (List Char)) (bad : List Char)
    (post : List (List Char)) (m : Err)
    (hpre : ∀ l ∈ pre, wsBenign l = true ∧ lineError l = none)
    (hbb : wsBenign bad = true) (hbad : lineError bad = some m) :
    parse_file_lines false ((pre ++ bad :: post).map ReadEvent.ok) = some (Except.error m) := by
  induction pre with
  | nil =>
    rw [List.nil_append, List.map_cons, parse_step_err false bad _ m hbb hbad]
    rfl
  | cons l pre' ih =>
    obtain ⟨hbl, hle⟩ := hpre l (by simp)
    have ih' := ih (fun x hx => hpre x (by simp [hx]))
    rcases line_trichotomy l with hs | ⟨e, he⟩ | ⟨m', hm'⟩
    · rw [List.cons_append, List.map_cons, parse_step_skip false l _ hbl hs]
      exact ih'
    · rw [List.cons_append, List.map_cons, parse_step_ok false l _ e hbl he, ih']
      rfl
    · rw [hm'] at hle
      exact absurd hle (by simp)

theorem parse_file_lines_append (ig : Bool) (pre rest : List ReadEvent) :
    ∀ es, parse_file_lines ig pre = some (Except.ok es) →
      parse_file_lines ig (pre ++ rest) =
        (parse_file_lines ig rest).map (Except.map (es ++ ·)) := by
  induction pre with
  | nil =>
    intro es h
    simp only [parse_file_lines, Option.some.injEq] at h
    have hes : es = [] := by
      cases h2 : es with
      | nil => rfl
      | cons a l => rw [h2] at h; exact absurd h (by simp)
    subst hes
    rw [List.nil_append]
    cases hr : parse_file_lines ig rest with
    | none => rfl
    | some r => cases r <;> simp [Except.map]
  | cons ev pre' ih =>
    intro es h
    cases ev with
    | fail => simp [parse_file_lines] at h
    | ok line =>
      rw [List.cons_append]
      cases hbd : byteDrop line (discard_ws line) with
      | none => simp [parse_file_lines, hbd] at h
      | some entryline =>
        cases entryline with
        | nil =>
          have hstep : ∀ r, parse_file_lines ig (ReadEvent.ok line :: r) =
              parse_file_lines ig r := by
            intro r
            simp [parse_file_lines, hbd]
          rw [hstep pre'] at h
          rw [hstep (pre' ++ rest)]
          exact ih es h
        | cons c cs =>
          by_cases hc : (c == '#') = true
          · have hstep : ∀ r, parse_file_lines ig (ReadEvent.ok line :: r) =
                parse_file_lines ig r := by
              intro r
              simp [parse_file_lines, hbd, hc]
            rw [hstep pre'] at h
            rw [hstep (pre' ++ rest)]
            exact ih es h
          · have hcb : (c == '#') = false := by simpa using hc
            cases hf : from_str (c :: cs) with
            | none => simp [parse_file_lines, hbd, hcb, hf] at h
            | some r =>
              cases r with
              | error m =>
                cases ig with
                | false => simp [parse_file_lines, hbd, hcb, hf] at h
                | true =>
                  have hstep : ∀ r', parse_file_lines true (ReadEvent.ok line :: r') =
                      parse_file_lines true r' := by
                    intro r'
                    simp [parse_file_lines, hbd, hcb, hf]
                  rw [hstep pre'] at h
                  rw [hstep (pre' ++ rest)]
                  exact ih es h
              | ok e =>
                cases hp : parse_file_lines ig pre' with
                | none => simp [parse_file_lines, hbd, hcb, hf, hp] at h
                | some r' =>
                  cases r' with
                  | error m' => simp [parse_file_lines, hbd, hcb, hf, hp] at h
                  | ok es0 =>
                    have hes : es = e :: es0 := by
                      have h2 := h
                      simp [parse_file_lines, hbd, hcb, hf, hp] at h2
                      exact h2.symm
                    subst hes
                    have ih' := ih es0 hp
                    cases hr : parse_file_lines ig rest with
                    | none => simp [parse_file_lines, hbd, hcb, hf, ih', hr]
                    | some rr =>
                      cases rr with
                      | error mm => simp [parse_file_lines, hbd, hcb, hf, ih', hr, Except.map]
                      | ok ee => simp [parse_file_lines, hbd, hcb, hf, ih', hr, Except.map]

/-! ## Claims -/

/-- Claim C1 counterexample: for the line `"svc 80/"` — whose second token is
a valid decimal port immediately followed by a trailing `/` with nothing
after it — `from_str` does NOT fail with the missing-protocol error; it
succeeds, with an empty protocol (Rust's `split` yields an empty second
segment, which is present and is not a comment). -/
theorem claim_c1_counterexample :
    from_str ("svc 80/".toList) =
      some (Except.ok (ServiceEntry.mk ("svc".toList) 80 [] []))
    ∧ from_str ("svc 80/".toList) ≠ some (Except.error Err.missingProtocolField) :=
  ⟨by decide, by decide⟩

/-- Claim C1 amended: for every input line whose second whitespace token is a
valid decimal port immediately followed by a trailing `/` with nothing after
it, `from_str` succeeds and the returned entry's protocol is the empty
string (rather than failing with MissingProtocolField). -/
theorem claim_c1_amended (line name d : List Char) (toks : List (List Char))
    (h : splitWhitespace line = name :: (d ++ ['/']) :: toks)
    (hn : is_comment name = false)
    (hne : d ≠ []) (hd : d.all Char.isDigit = true) (hv : digitsVal d < 2 ^ 64) :
    from_str line =
      some (Except.ok (ServiceEntry.mk name (digitsVal d) [] (collectAliases toks))) := by
  have hslash : '/' ∉ d := by
    intro hm
    have := List.all_eq_true.mp hd '/' hm
    exact absurd this (by decide)
  have hpu := parseUsize_digits d hne hd hv
  have hcd : is_comment d = false := parseUsize_not_comment d _ hpu
  have hsplit : splitOn '/' (d ++ ['/']) = d :: [[]] := by
    rw [show d ++ ['/'] = d ++ '/' :: [] from rfl, splitOn_append '/' d [] hslash]
    rfl
  have hcn : is_comment ([] : List Char) = false := rfl
  simp [from_str, h, hn, hsplit, hcd, hpu, hcn]

/-- Claim C1 witness: the amended theorem applied to the line `"svc 80/"`. -/
theorem claim_c1_witness :
    from_str ("svc 80/".toList) =
      some (Except.ok (ServiceEntry.mk ("svc".toList) 80 [] [])) := by
  have h := claim_c1_amended ("svc 80/".toList) ("svc".toList) ("80".toList) []
    (by decide) (by decide) (by decide) (by decide) (by decide)
  exact h

/-- Claim C2 counterexample: the successful parse of `"svc 80/"` returns an
entry whose protocol is the EMPTY string, refuting the invariant that the
protocol of every successfully parsed entry is non-empty. -/
theorem claim_c2_counterexample :
    from_str ("svc 80/".toList) =
      some (Except.ok (ServiceEntry.mk ("svc".toList) 80 [] []))
    ∧ (ServiceEntry.mk ("svc".toList) 80 [] []).protocol = [] :=
  ⟨by decide, rfl⟩

/-- Claim C2 amended: for every entry returned by a successful `from_str`,
the name is non-empty and neither the name nor the protocol begins with the
comment marker `#`; the protocol, however, may be empty. -/
theorem claim_c2_amended (s : List Char) (e : ServiceEntry)
    (h : from_str s = some (Except.ok e)) :
    e.name ≠ [] ∧ is_comment e.name = false ∧ is_comment e.protocol = false := by
  unfold from_str at h
  split at h
  · exact absurd h (by simp)
  · rename_i name rest heq
    split at h
    · exact absurd h (by simp)
    · rename_i hname
      split at h
      · exact absurd h (by simp)
      · rename_i pp rest2
        split at h
        · exact absurd h (by simp)
        · rename_i port protoRest hsp
          split at h
          · exact absurd h (by simp)
          · rename_i hport
            split at h
            · exact absurd h (by simp)
            · rename_i p hpu
              split at h
              · exact absurd h (by simp)
              · rename_i protocol prs
                split at h
                · exact absurd h (by simp)
                · rename_i hproto
                  have he : e = ServiceEntry.mk name p protocol (collectAliases rest2) := by
                    simpa using h.symm
                  subst he
                  refine ⟨?_, ?_, ?_⟩
                  · apply splitWhitespace_mem_ne_nil s
                    rw [heq]
                    exact List.mem_cons_self _ _
                  · simpa using hname
                  · simpa using hproto

/-- Claim C2 witness: the amended invariant evaluated on the parse of
`"tcpmux 1/tcp"`. -/
theorem claim_c2_witness :
    (ServiceEntry.mk ("tcpmux".toList) 1 ("tcp".toList) []).name ≠ []
    ∧ is_comment (ServiceEntry.mk ("tcpmux".toList) 1 ("tcp".toList) []).name = false
    ∧ is_comment (ServiceEntry.mk ("tcpmux".toList) 1 ("tcp".toList) []).protocol = false :=
  claim_c2_amended ("tcpmux 1/tcp".toList) _ (by decide)
/-- Claim C3 counterexample: for the line `"svc 80/tcp/udp"` the protocol of
the successful parse is `"tcp"`, NOT `"tcp/udp"`: the code takes only the
segment between the first `/` and the next `/`, not everything after the
first `/`. -/
theorem claim_c3_counterexample :
    from_str ("svc 80/tcp/udp".toList) =
      some (Except.ok (ServiceEntry.mk ("svc".toList) 80 ("tcp".toList) []))
    ∧ ("tcp".toList : List Char) ≠ "tcp/udp".toList :=
  ⟨by decide, by decide⟩

/-- Claim C3 amended: the port/protocol token is split at every `/`; the
candidate port text is everything before the first `/`, and the candidate
protocol text is the segment strictly between the first `/` and the next
`/` (or the end of the token) — so for a token like `"80/tcp/udp"` the
protocol of a successful parse is `"tcp"`. -/
theorem claim_c3_amended (line name a b : List Char) (toks : List (List Char)) (v : Nat)
    (h : splitWhitespace line = name :: (a ++ '/' :: b) :: toks)
    (hn : is_comment name = false)
    (ha : '/' ∉ a)
    (hp : parseUsize a = some v)
    (hpc : is_comment (b.takeWhile (fun c => c != '/')) = false) :
    from_str line = some (Except.ok (ServiceEntry.mk name v
      (b.takeWhile (fun c => c != '/')) (collectAliases toks))) := by
  have hca : is_comment a = false := parseUsize_not_comment a v hp
  obtain ⟨ts, hts⟩ := splitOn_head '/' b
  have hsplit : splitOn '/' (a ++ '/' :: b) =
      a :: b.takeWhile (fun c => c != '/') :: ts := by
    rw [splitOn_append '/' a b ha, hts]
  simp [from_str, h, hn, hsplit, hca, hp, hpc]

/-- Claim C3 witness: the amended theorem applied to `"svc 80/tcp/udp"`. -/
theorem claim_c3_witness :
    from_str ("svc 80/tcp/udp".toList) =
      some (Except.ok (ServiceEntry.mk ("svc".toList) 80
        (List.takeWhile (fun c => c != '/') ("tcp/udp".toList)) [])) :=
  claim_c3_amended ("svc 80/tcp/udp".toList) ("svc".toList) ("80".toList)
    ("tcp/udp".toList) [] 80 (by decide) (by decide) (by decide) (by decide) (by decide)

/-- Claim C4 counterexample: the port text `"+80"` has a leading `+`, yet
`from_str` does NOT fail with MalformedPort: Rust's unsigned integer parse
accepts an optional leading `+`, so `"svc +80/tcp"` parses successfully with
port 80. -/
theorem claim_c4_counterexample :
    from_str ("svc +80/tcp".toList) =
      some (Except.ok (ServiceEntry.mk ("svc".toList) 80 ("tcp".toList) []))
    ∧ from_str ("svc +80/tcp".toList) ≠ some (Except.error Err.malformedPort) :=
  ⟨by decide, by decide⟩

/-- Claim C4 amended: the candidate port text is accepted exactly when it is
an optional leading `+` followed by a non-empty base-10 digit sequence whose
value fits the 64-bit target width; a leading `-`, other non-digit
characters, the empty string, or an overflowing value make the parse fail,
and then `from_str` fails with MalformedPort. -/
theorem claim_c4_amended (line name pp : List Char) (toks : List (List Char))
    (port : List Char) (protoRest : List (List Char))
    (h : splitWhitespace line = name :: pp :: toks)
    (hn : is_comment name = false)
    (hs : splitOn '/' pp = port :: protoRest)
    (hpc : is_comment port = false)
    (hfail : parseUsize port = none) :
    from_str line = some (Except.error Err.malformedPort)
    ∧ (∀ d : List Char, d ≠ [] → d.all Char.isDigit = true → digitsVal d < 2 ^ 64 →
        parseUsize d = some (digitsVal d) ∧ parseUsize ('+' :: d) = some (digitsVal d))
    ∧ (∀ d : List Char, parseUsize ('-' :: d) = none)
    ∧ parseUsize ([] : List Char) = none
    ∧ (∀ d : List Char, d.all Char.isDigit = true → 2 ^ 64 ≤ digitsVal d →
        parseUsize d = none) := by
  refine ⟨?_, ?_, ?_, rfl, ?_⟩
  · simp [from_str, h, hn, hs, hpc, hfail]
  · exact fun d h1 h2 h3 =>
      ⟨parseUsize_digits d h1 h2 h3, parseUsize_plus_digits d h1 h2 h3⟩
  · intro d
    have hsp : stripPlus ('-' :: d) = '-' :: d := rfl
    have hall : (('-' :: d).all Char.isDigit) = false := by
      simp [List.all_cons, show ('-').isDigit = false from by decide]
    simp [parseUsize, hsp, hall]
  · intro d hall hv
    have hsp := stripPlus_of_digits d hall
    unfold parseUsize
    rw [hsp]
    by_cases hne : d = []
    · subst hne
      rfl
    · rw [if_neg (by simp [List.isEmpty_iff, hne]), if_pos hall, if_neg (by omega)]

/-- Claim C4 witness: the amended theorem applied to `"svc x/tcp"`, whose
port text `"x"` is rejected. -/
theorem claim_c4_witness :
    from_str ("svc x/tcp".toList) = some (Except.error Err.malformedPort) :=
  (claim_c4_amended ("svc x/tcp".toList) ("svc".toList) ("x/tcp".toList) []
    ("x".toList) ["tcp".toList] (by decide) (by decide) (by decide) (by decide)
    (by decide)).1
/-- Claim C5 counterexample: a single entry line that is well-formed by the
grammar (optional Unicode leading whitespace, then name, port/protocol) but
whose leading whitespace is the two-byte NO-BREAK SPACE U+00A0 makes the
aggregator panic (modelled `none`) even with ignore_errors = true — it does
not return the entry list the claim promises for every line sequence. -/
theorem claim_c5_counterexample :
    parse_file_lines true [ReadEvent.ok (Char.ofNat 160 :: "svc 80/tcp".toList)] = none
    ∧ isRustWhitespace (Char.ofNat 160) = true
    ∧ from_str ("svc 80/tcp".toList) =
        some (Except.ok (ServiceEntry.mk ("svc".toList) 80 ("tcp".toList) [])) :=
  ⟨by decide, by decide, by decide⟩

/-- Claim C5 amended: restricted to lines whose leading whitespace consists
of single-byte characters (so the char-counting `discard_ws` agrees with the
byte slice and no panic occurs): with ignore_errors = false the aggregator
aborts at the first malformed entry line and returns exactly that line's
parse error, even when well-formed lines precede it; with
ignore_errors = true it returns exactly the entries of the well-formed
lines, in input order, with malformed lines silently absent. -/
theorem claim_c5_amended (pre : List (List Char)) (bad : List Char)
    (post : List (List Char)) (m : Err)
    (hpre : ∀ l ∈ pre, wsBenign l = true ∧ lineError l = none)
    (hbb : wsBenign bad = true) (hbad : lineError bad = some m) :
    parse_file_lines false ((pre ++ bad :: post).map ReadEvent.ok) = some (Except.error m)
    ∧ ∀ ls : List (List Char), (∀ l ∈ ls, wsBenign l = true) →
        parse_file_lines true (ls.map ReadEvent.ok) =
          some (Except.ok (ls.filterMap okEntry)) :=
  ⟨parse_file_lines_abort pre bad post m hpre hbb hbad,
    fun ls hb => parse_file_lines_ignore ls hb⟩

/-- Claim C5 witness: a good line, then a malformed line, then another good
line; with ignore_errors = false the result is exactly the malformed line's
error. -/
theorem claim_c5_witness :
    parse_file_lines false
        ((["a 1/tcp".toList] ++ ("bad".toList) :: ["b 2/udp".toList]).map ReadEvent.ok) =
      some (Except.error Err.missingPortProtocolField) :=
  (claim_c5_amended ["a 1/tcp".toList] ("bad".toList) ["b 2/udp".toList]
    Err.missingPortProtocolField (by decide) (by decide) (by decide)).1

/-- Claim C6: for every line `from_str` accepts, the aliases are exactly the
tokens after the port/protocol token, in input order, up to but not
including the first token that starts with the comment marker; a line with
exactly two tokens yields an empty alias list. -/
theorem claim_c6 (line name pp : List Char) (toks : List (List Char)) (e : ServiceEntry)
    (h : splitWhitespace line = name :: pp :: toks)
    (he : from_str line = some (Except.ok e)) :
    e.aliases = toks.takeWhile (fun t => !is_comment t)
    ∧ (toks = [] → e.aliases = []) := by
  simp only [from_str, h] at he
  split at he
  · exact absurd he (by simp)
  · split at he
    · exact absurd he (by simp)
    · rename_i port protoRest hsp
      split at he
      · exact absurd he (by simp)
      · split at he
        · exact absurd he (by simp)
        · rename_i p hpu
          split at he
          · exact absurd he (by simp)
          · rename_i protocol prs
            split at he
            · exact absurd he (by simp)
            · have hee : e = ServiceEntry.mk name p protocol (collectAliases toks) := by
                simpa using he.symm
              subst hee
              refine ⟨?_, fun ht => ?_⟩
              · simpa using collectAliases_eq_takeWhile toks
              · simp [ht, collectAliases]

/-- Claim C6 witness: `"tcpmux 1/tcp a b #c d"` keeps aliases `a`, `b` and
discards the comment token `#c` and everything after it. -/
theorem claim_c6_witness :
    (ServiceEntry.mk ("tcpmux".toList) 1 ("tcp".toList)
        ["a".toList, "b".toList]).aliases =
      List.takeWhile (fun t => !is_comment t)
        ["a".toList, "b".toList, "#c".toList, "d".toList]
    ∧ (["a".toList, "b".toList, "#c".toList, "d".toList] = ([] : List (List Char)) →
        (ServiceEntry.mk ("tcpmux".toList) 1 ("tcp".toList)
          ["a".toList, "b".toList]).aliases = []) :=
  claim_c6 ("tcpmux 1/tcp a b #c d".toList) ("tcpmux".toList) ("1/tcp".toList)
    ["a".toList, "b".toList, "#c".toList, "d".toList]
    (ServiceEntry.mk ("tcpmux".toList) 1 ("tcp".toList) ["a".toList, "b".toList])
    (by decide) (by decide)

/-- Claim C7 (code bug): a line consisting of the two-byte NO-BREAK SPACE
followed by `#` is a comment line after stripping (its first significant
character is `#`), so the claim says it is skipped; instead the aggregator
panics (modelled `none`) for both flag values, because `discard_ws` returns
the CHARACTER count 1 which `parse_file` then uses as a BYTE offset inside
the two-byte whitespace character. -/
theorem claim_c7_bug :
    parse_file_lines false [ReadEvent.ok [Char.ofNat 160, '#']] = none
    ∧ parse_file_lines true [ReadEvent.ok [Char.ofNat 160, '#']] = none
    ∧ isRustWhitespace (Char.ofNat 160) = true
    ∧ List.dropWhile isRustWhitespace [Char.ofNat 160, '#'] = ['#'] :=
  ⟨by decide, by decide, by decide, by decide⟩

/-- Claim C8 counterexample: the stream `[line "svc", read failure]` with
ignore_errors = false returns the malformed line's error, NOT ReadFailed:
the aggregator aborts on the earlier parse error before ever reaching the
read failure, refuting the claim that every sequence containing a read
failure yields ReadFailed for both flag values. -/
theorem claim_c8_counterexample :
    parse_file_lines false [ReadEvent.ok ("svc".toList), ReadEvent.fail] =
      some (Except.error Err.missingPortProtocolField)
    ∧ Err.missingPortProtocolField ≠ Err.readFailed :=
  ⟨by decide, by decide⟩

/-- Claim C8 amended: whenever the aggregator actually reaches the read
failure — that is, the lines before it process to a successful partial
result on their own — it returns ReadFailed, for both values of
ignore_errors; a read failure is never suppressed by the ignore policy. -/
theorem claim_c8_amended (ig : Bool) (pre rest : List ReadEvent) (es : List ServiceEntry)
    (h : parse_file_lines ig pre = some (Except.ok es)) :
    parse_file_lines ig (pre ++ ReadEvent.fail :: rest) =
      some (Except.error Err.readFailed) := by
  rw [parse_file_lines_append ig pre (ReadEvent.fail :: rest) es h]
  rfl

/-- Claim C8 witness: one well-formed line before a read failure, with the
error-tolerant flag set: the result is still ReadFailed. -/
theorem claim_c8_witness :
    parse_file_lines true ([ReadEvent.ok ("a 1/tcp".toList)] ++ ReadEvent.fail :: []) =
      some (Except.error Err.readFailed) :=
  claim_c8_amended true [ReadEvent.ok ("a 1/tcp".toList)] []
    [ServiceEntry.mk ("a".toList) 1 ("tcp".toList) []] (by decide)

/-- Claim C9 (code bug): for the line NO-BREAK SPACE `x`, `discard_ws`
returns 1 (the character count), but the byte length of the leading
whitespace run is 2, so 1 is not a UTF-8 character boundary and the byte
slice `&line[1..]` taken by the aggregator panics (`byteDrop` is `none`). -/
theorem claim_c9_bug :
    discard_ws [Char.ofNat 160, 'x'] = 1
    ∧ byteDrop [Char.ofNat 160, 'x'] 1 = none
    ∧ utf8Len (List.takeWhile isRustWhitespace [Char.ofNat 160, 'x']) = 2 :=
  ⟨by decide, by decide, by decide⟩

/-- Claim C10: on every input with at least one whitespace-delimited token
(the aggregator's precondition), `from_str` returns a result without
panicking: both `unwrap`s are safe. -/
theorem claim_c10 (s : List Char) (h : splitWhitespace s ≠ []) :
    (from_str s).isSome = true :=
  from_str_isSome s h

/-- Claim C10 witness: the one-token line `"service"` (which fails with an
error, but returns rather than panicking). -/
theorem claim_c10_witness : (from_str ("service".toList)).isSome = true :=
  claim_c10 ("service".toList) (by decide)
